import Mathlib

/-!
Verification of the goal-planner local-first sync engine against its
natural-language specification.

The definitions below are a shallow embedding of the TypeScript source:

* `src/lib/sync/queue.ts`   — outbox (sync_queue) operations, compactor,
  backoff (`coalescePendingOps`, `shouldRetryItem`, `getPendingSync`,
  `incrementRetry`, `queueSync` and friends);
* `src/lib/sync/engine.ts`  — push path (`processSyncItem`,
  `syncRemoteToLocal`) and pull merge (`mergeByTimestamp`,
  `discardStaleSyncs`);
* `src/lib/sync/operations.ts` — `operationToMutation`, `canCoalesce`;
* `src/lib/sync/conflict.ts`   — `isRemoteNewer`, `resolveConflict`;
* `src/lib/db/repositories/goalLists.ts` — `createGoalList` write path.

Modelling conventions:

* ISO-8601 timestamp strings are modelled by their epoch-millisecond
  values (`Int`); the source always compares them through
  `new Date(s).getTime()`, which this ordering reflects.
* JavaScript values stored in outbox rows (`unknown`) are modelled by the
  inductive `Value`; plain objects become `Value.record` over an
  insertion-ordered association list, which is exactly the key ordering
  and override behaviour of JS object spread and index assignment.
* Dexie auto-increment primary keys are modelled as `Nat`; the value `0`
  plays the role of a JS-falsy id (`undefined` or `0`), matching the
  source's `if (item.id)` guards.  Real rows read back from the store
  always have distinct, non-zero ids.
-/

namespace GoalPlanner

/-- JS values as stored in outbox rows: `undefined`, `null`, booleans,
numbers (the engine only does integer arithmetic on them), strings and
plain objects with insertion-ordered keys. -/
inductive Value where
  | undef : Value
  | nullv : Value
  | bool : Bool → Value
  | num : Int → Value
  | str : String → Value
  | record : List (String × Value) → Value
deriving Repr

mutual

/-- Decidable equality for `Value`, spelled out because of the nested
`List (String × Value)` occurrence. -/
def Value.deq : (a b : Value) → Decidable (a = b)
  | .undef, .undef => isTrue rfl
  | .nullv, .nullv => isTrue rfl
  | .bool x, .bool y =>
      match decEq x y with
      | isTrue h => isTrue (by rw [h])
      | isFalse h => isFalse (by intro hc; cases hc; exact h rfl)
  | .num x, .num y =>
      match decEq x y with
      | isTrue h => isTrue (by rw [h])
      | isFalse h => isFalse (by intro hc; cases hc; exact h rfl)
  | .str x, .str y =>
      match decEq x y with
      | isTrue h => isTrue (by rw [h])
      | isFalse h => isFalse (by intro hc; cases hc; exact h rfl)
  | .record xs, .record ys =>
      match Value.deqFields xs ys with
      | isTrue h => isTrue (by rw [h])
      | isFalse h => isFalse (by intro hc; cases hc; exact h rfl)
  | .undef, .nullv => isFalse (by intro h; cases h)
  | .undef, .bool _ => isFalse (by intro h; cases h)
  | .undef, .num _ => isFalse (by intro h; cases h)
  | .undef, .str _ => isFalse (by intro h; cases h)
  | .undef, .record _ => isFalse (by intro h; cases h)
  | .nullv, .undef => isFalse (by intro h; cases h)
  | .nullv, .bool _ => isFalse (by intro h; cases h)
  | .nullv, .num _ => isFalse (by intro h; cases h)
  | .nullv, .str _ => isFalse (by intro h; cases h)
  | .nullv, .record _ => isFalse (by intro h; cases h)
  | .bool _, .undef => isFalse (by intro h; cases h)
  | .bool _, .nullv => isFalse (by intro h; cases h)
  | .bool _, .num _ => isFalse (by intro h; cases h)
  | .bool _, .str _ => isFalse (by intro h; cases h)
  | .bool _, .record _ => isFalse (by intro h; cases h)
  | .num _, .undef => isFalse (by intro h; cases h)
  | .num _, .nullv => isFalse (by intro h; cases h)
  | .num _, .bool _ => isFalse (by intro h; cases h)
  | .num _, .str _ => isFalse (by intro h; cases h)
  | .num _, .record _ => isFalse (by intro h; cases h)
  | .str _, .undef => isFalse (by intro h; cases h)
  | .str _, .nullv => isFalse (by intro h; cases h)
  | .str _, .bool _ => isFalse (by intro h; cases h)
  | .str _, .num _ => isFalse (by intro h; cases h)
  | .str _, .record _ => isFalse (by intro h; cases h)
  | .record _, .undef => isFalse (by intro h; cases h)
  | .record _, .nullv => isFalse (by intro h; cases h)
  | .record _, .bool _ => isFalse (by intro h; cases h)
  | .record _, .num _ => isFalse (by intro h; cases h)
  | .record _, .str _ => isFalse (by intro h; cases h)

/-- Decidable equality on record field lists. -/
def Value.deqFields : (a b : List (String × Value)) → Decidable (a = b)
  | [], [] => isTrue rfl
  | [], _ :: _ => isFalse (by intro h; cases h)
  | _ :: _, [] => isFalse (by intro h; cases h)
  | (k₁, v₁) :: xs, (k₂, v₂) :: ys =>
      match decEq k₁ k₂ with
      | isTrue hk =>
        match Value.deq v₁ v₂ with
        | isTrue hv =>
          match Value.deqFields xs ys with
          | isTrue ht => isTrue (by rw [hk, hv, ht])
          | isFalse ht => isFalse (by intro hc; cases hc; exact ht rfl)
        | isFalse hv => isFalse (by intro hc; cases hc; exact hv rfl)
      | isFalse hk => isFalse (by intro hc; cases hc; exact hk rfl)

end

instance : DecidableEq Value := Value.deq

/-- JS object index assignment `m[k] = v`: replace the value in place if
the key exists, append otherwise. -/
def rupsert (m : List (String × Value)) (k : String) (v : Value) :
    List (String × Value) :=
  if m.any (fun p => p.1 = k) then
    m.map (fun p => if p.1 = k then (k, v) else p)
  else m ++ [(k, v)]

/-- JS object spread `{...acc, ...fs}` restricted to the accumulating
direction used by the source: assign every field of `fs` into `acc`
in order. -/
def spreadInto (acc : List (String × Value)) (fs : List (String × Value)) :
    List (String × Value) :=
  fs.foldl (fun a p => rupsert a p.1 p.2) acc

/-- JS string truthiness on an optional field name: `undefined` and the
empty string are falsy (`if (item.field)`). -/
def strTruthy : Option String → Option String
  | some s => if s = "" then none else some s
  | none => none

/-- `OperationType` from `src/lib/sync/types.ts`:
`'increment' | 'set' | 'create' | 'delete'`. -/
inductive OpType where
  | increment : OpType
  | set : OpType
  | create : OpType
  | delete : OpType
deriving Repr, DecidableEq

/-- `SyncOperationItem` from `src/lib/sync/types.ts`, the intent-based
outbox row used by `src/lib/sync/queue.ts` and
`src/lib/sync/operations.ts`.  `table` is a `SyncEntityType` string
literal; `id` is the Dexie auto-increment primary key (0 = JS-falsy
absent id); `timestamp` is the enqueue / last-attempt time in epoch ms;
`value` is `undefined` when the operation carries none. -/
structure SyncOperationItem where
  id : Nat
  table : String
  entityId : String
  opType : OpType
  field : Option String
  value : Value
  timestamp : Int
  retries : Nat
deriving Repr, DecidableEq

/-- Group key used by `coalescePendingOps`: the literal template string
`` `${item.table}:${item.entityId}` ``. -/
def groupKey (i : SyncOperationItem) : String :=
  i.table ++ ":" ++ i.entityId

/-- Insert `x` into a list already processed so that elements whose
timestamp is `≤ x`'s stay in front of it, matching the behaviour of the
stable `Array.prototype.sort` comparator
`(a, b) => Date(a.timestamp) - Date(b.timestamp)`. -/
def insertByTs (x : SyncOperationItem) :
    List SyncOperationItem → List SyncOperationItem
  | [] => [x]
  | y :: ys =>
      if y.timestamp ≤ x.timestamp then y :: insertByTs x ys
      else x :: y :: ys

/-- Stable sort by `timestamp` (oldest first), as performed on the
`set` items of a group before merging, and by the Dexie
`orderBy('timestamp')` read in `getPendingSync`. -/
def sortByTs (l : List SyncOperationItem) : List SyncOperationItem :=
  l.foldl (fun acc x => insertByTs x acc) []

/-- The set-operation rows of the `(table, entityId)` group keyed `k`,
in queue order: `items.filter(i => i.operationType === 'set')` after
grouping. -/
def setItemsOfGroup (q : List SyncOperationItem) (k : String) :
    List SyncOperationItem :=
  q.filter (fun i => groupKey i = k ∧ i.opType = OpType.set)

/-- The merged payload built by `coalescePendingOps` for a group's set
items: iterate them oldest-first; a (truthy) single-field set assigns
`mergedValue[field] = value`; a multi-field set (object value) spreads
its fields; anything else contributes nothing. -/
def mergedValueFor (sets : List SyncOperationItem) : Value :=
  Value.record ((sortByTs sets).foldl
    (fun acc i =>
      match strTruthy i.field with
      | some f => rupsert acc f i.value
      | none =>
        match i.value with
        | Value.record fs => spreadInto acc fs
        | _ => acc)
    [])

/-- Primary key of the oldest set item of a group (`setItems[0]` after
the timestamp sort).  Only consulted when the group has at least one
set item. -/
def oldestSetId (sets : List SyncOperationItem) : Nat :=
  match sortByTs sets with
  | [] => 0
  | x :: _ => x.id

/-- Per-row outcome of one compaction pass over queue `q`, faithful to
`coalescePendingOps` in `src/lib/sync/queue.ts`: within each group whose
set items number more than one, the oldest set item is updated in place
with the merged value and a cleared `field` (guarded by the JS-truthy
`if (oldestItem.id)`), the remaining set items are deleted (guarded by
`if (item.id)`), and every other row is left untouched.  Because groups
partition the queue and the store addresses rows by unique primary key,
the net effect of the source's per-group `update`/`delete` calls on the
stored queue is exactly this row-wise map. -/
def coalesceStep (q : List SyncOperationItem) (i : SyncOperationItem) :
    Option SyncOperationItem :=
  let sets := setItemsOfGroup q (groupKey i)
  if i.opType = OpType.set ∧ 1 < sets.length then
    if i.id = oldestSetId sets then
      if i.id ≠ 0 then some { i with value := mergedValueFor sets, field := none }
      else some i
    else
      if i.id ≠ 0 then none else some i
  else some i

/-- `coalescePendingOps` from `src/lib/sync/queue.ts`, as a function from
the stored queue to the stored queue.  Queues of length ≤ 1 are returned
unchanged (`if (allItems.length <= 1) return 0`).  Note the source only
coalesces `set` operations; increments, creates and deletes pass
through (the file's comment: increments are not coalesced in Phase 1). -/
def coalescePendingOps (q : List SyncOperationItem) : List SyncOperationItem :=
  if q.length ≤ 1 then q else q.filterMap (coalesceStep q)

/-- `MAX_SYNC_RETRIES` from `src/lib/sync/queue.ts`. -/
def MAX_SYNC_RETRIES : Nat := 5

/-- `shouldRetryItem` from `src/lib/sync/queue.ts`: drop items at the
retry ceiling; first attempt (`retries = 0`) is always eligible;
afterwards wait `2^(retries-1)` seconds from the last attempt. -/
def shouldRetryItem (item : SyncOperationItem) (now : Int) : Bool :=
  if MAX_SYNC_RETRIES ≤ item.retries then false
  else if item.retries = 0 then true
  else decide ((2 : Int) ^ (item.retries - 1) * 1000 ≤ now - item.timestamp)

/-- `getPendingSync` from `src/lib/sync/queue.ts`: read the queue ordered
by `timestamp` and keep the items whose backoff has elapsed. -/
def getPendingSync (q : List SyncOperationItem) (now : Int) :
    List SyncOperationItem :=
  (sortByTs q).filter (fun i => shouldRetryItem i now)

/-- `incrementRetry` from `src/lib/sync/queue.ts`: bump `retries` and
refresh `timestamp` to now on the row with the given primary key. -/
def incrementRetry (q : List SyncOperationItem) (rowId : Nat) (now : Int) :
    List SyncOperationItem :=
  q.map (fun it =>
    if it.id = rowId then { it with retries := it.retries + 1, timestamp := now }
    else it)

/-- `canCoalesce` from `src/lib/sync/operations.ts`: same table and
entity, same operation type, not on two different (truthy) fields, and
the type is neither `create`, `delete` nor `increment`. -/
def canCoalesce (a b : SyncOperationItem) : Bool :=
  if a.table ≠ b.table ∨ a.entityId ≠ b.entityId then false
  else if a.opType = b.opType then
    if (strTruthy a.field).isSome ∧ (strTruthy b.field).isSome ∧
        a.field ≠ b.field then false
    else if a.opType = OpType.create ∨ a.opType = OpType.delete then false
    else if a.opType = OpType.increment then false
    else true
  else false

/-- Remote mutation kind of `operationToMutation`. -/
inductive MutationType where
  | insert : MutationType
  | update : MutationType
  | delete : MutationType
deriving Repr, DecidableEq

/-- Helper for `operationToMutation`: the numeric coercion
`typeof v === 'number' ? v : 0`. -/
def numOrZero : Value → Int
  | Value.num n => n
  | _ => 0

/-- Helper for `operationToMutation`: the record fields behind the cast
`value as Record<string, unknown>` (non-objects contribute none). -/
def recordFields : Value → List (String × Value)
  | Value.record fs => fs
  | _ => []

/-- `operationToMutation` from `src/lib/sync/operations.ts`: translate an
outbox operation into the Supabase mutation payload.  An increment
without a (truthy) field throws, modelled by `Except.error`.  Timestamps
placed into payloads are the operation's own `timestamp`. -/
def operationToMutation (op : SyncOperationItem) (currentValue : Value) :
    Except String (MutationType × List (String × Value)) :=
  match op.opType with
  | OpType.create =>
      Except.ok (MutationType.insert,
        spreadInto [("id", Value.str op.entityId)] (recordFields op.value))
  | OpType.delete =>
      Except.ok (MutationType.update,
        [("deleted", Value.bool true), ("updated_at", Value.num op.timestamp)])
  | OpType.increment =>
      match strTruthy op.field with
      | none => Except.error "Increment operation requires a field"
      | some f =>
          Except.ok (MutationType.update,
            [(f, Value.num (numOrZero currentValue + numOrZero op.value)),
             ("updated_at", Value.num op.timestamp)])
  | OpType.set =>
      match strTruthy op.field with
      | some f =>
          Except.ok (MutationType.update,
            [(f, op.value), ("updated_at", Value.num op.timestamp)])
      | none =>
          Except.ok (MutationType.update,
            rupsert (spreadInto [] (recordFields op.value)) "updated_at"
              (Value.num op.timestamp))

/-- A synced entity row as the engine sees it (`T extends Timestamped`
with `id` and `updated_at`; the entity-specific columns are opaque and
kept in `fields`). -/
structure Row where
  id : String
  updated_at : Int
  fields : List (String × Value)
deriving Repr, DecidableEq

/-- `SyncOperation` of the snapshot-based queue format:
`'create' | 'update' | 'delete'`. -/
inductive SyncOp where
  | create : SyncOp
  | update : SyncOp
  | delete : SyncOp
deriving Repr, DecidableEq

/-- `SyncQueueItem` from `src/lib/types.ts`, the snapshot-based outbox
row consumed by `src/lib/sync/engine.ts` and produced by `queueSync`
(`src/lib/sync/queue.ts`): full payload snapshot, enqueue timestamp
(epoch ms) and retry count. -/
structure SyncQueueItem where
  id : Nat
  table : String
  operation : SyncOp
  entityId : String
  payload : List (String × Value)
  timestamp : Int
  retries : Nat
deriving Repr, DecidableEq

/-- JS `new Map(items.map(i => [i.id, i])).get(k)`: the LAST item with
the given id wins, map keys being overwritten in iteration order. -/
def lookupLast (l : List Row) (i : String) : Option Row :=
  (l.filter (fun r => r.id = i)).getLast?

/-- `isLocalNewer` from `src/lib/sync/engine.ts`: an absent local row is
never newer; otherwise strict comparison of `updated_at`. -/
def isLocalNewer (localRow : Option Row) (remote : Row) : Bool :=
  match localRow with
  | none => false
  | some l => decide (remote.updated_at < l.updated_at)

/-- One step of the remote loop in `mergeByTimestamp`
(`src/lib/sync/engine.ts`): given the local row (if any) and whether the
entity has a pending sync item, pick the surviving row and report
whether the entity's pending syncs became stale. -/
def mergeRemoteStep (localRow : Option Row) (pending : Option SyncQueueItem)
    (remote : Row) : Row × Bool :=
  match localRow, pending with
  | some l, some _ =>
      if l.updated_at < remote.updated_at then (remote, true) else (l, false)
  | _, _ =>
      if isLocalNewer localRow remote then (localRow.getD remote, false)
      else (remote, false)

/-- `mergeByTimestamp` from `src/lib/sync/engine.ts` (the variant taking
`pendingItems`): process the remote rows against the local map and the
pending-ops map, collecting stale entity ids, then append every
local-only row (ids never seen among the remote rows).  Returns the
merged rows and the stale entity ids in order. -/
def mergeByTimestamp (localItems remoteItems : List Row)
    (pending : List (String × SyncQueueItem)) : List Row × List String :=
  let step := fun (acc : List Row × List String) (remote : Row) =>
    let res := mergeRemoteStep (lookupLast localItems remote.id)
      (List.lookup remote.id pending) remote
    (acc.1 ++ [res.1], if res.2 then acc.2 ++ [remote.id] else acc.2)
  let merged := remoteItems.foldl step ([], [])
  let seen := remoteItems.map (fun r => r.id)
  (merged.1 ++ localItems.filter (fun l => ¬ seen.contains l.id), merged.2)

/-- `removeSyncItemsForEntity` from `src/lib/sync/queue.ts`: delete every
outbox row targeting the entity. -/
def removeSyncItemsForEntity (q : List SyncQueueItem) (eid : String) :
    List SyncQueueItem :=
  q.filter (fun i => ¬ i.entityId = eid)

/-- `discardStaleSyncs` from `src/lib/sync/engine.ts`: remove the pending
syncs of every stale entity. -/
def discardStaleSyncs (stale : List String) (q : List SyncQueueItem) :
    List SyncQueueItem :=
  stale.foldl (fun acc eid => removeSyncItemsForEntity acc eid) q

/-- Dexie `table.put(row)`: replace the row with the same primary key,
or append it. -/
def putRow (store : List Row) (r : Row) : List Row :=
  if store.any (fun x => x.id = r.id) then
    store.map (fun x => if x.id = r.id then r else x)
  else store ++ [r]

/-- Outcome of pushing an `update` outbox item
(`processSyncItem` in `src/lib/sync/engine.ts`). -/
inductive UpdateOutcome where
  | applied : UpdateOutcome
  | discardedPull : UpdateOutcome
  | discardedMissing : UpdateOutcome
deriving Repr, DecidableEq

/-- The `update` branch of `processSyncItem` together with the local
effect of `syncRemoteToLocal` (`src/lib/sync/engine.ts`):
`payloadUpdatedAt` is `payload.updated_at` (absent when the snapshot
carries none), `remote` the remote row fetched by id (absent on
`PGRST116` row-not-found).  A missing remote discards the op; a remote
strictly newer than the local basis discards the op and puts the remote
row into the local store; otherwise the update is applied to the
remote. -/
def pushUpdate (payloadUpdatedAt : Option Int) (remote : Option Row)
    (localStore : List Row) : UpdateOutcome × List Row :=
  match remote with
  | none => (UpdateOutcome.discardedMissing, localStore)
  | some r =>
      match payloadUpdatedAt with
      | some lt =>
          if lt < r.updated_at then
            (UpdateOutcome.discardedPull, putRow localStore r)
          else (UpdateOutcome.applied, localStore)
      | none => (UpdateOutcome.applied, localStore)

/-- The remote command a push emits for one outbox item, as issued by
`processSyncItem` in `src/lib/sync/engine.ts`. -/
inductive RemoteCmd where
  | insert : String → List (String × Value) → RemoteCmd
  | update : String → String → List (String × Value) → RemoteCmd
  | hardDelete : String → String → RemoteCmd
deriving Repr, DecidableEq

/-- `processSyncItem` from `src/lib/sync/engine.ts` viewed as the remote
command it issues (`none` when the op is discarded without a remote
write): `create` inserts `{id: entityId, ...payload}`; `update` follows
the stale-basis check of `pushUpdate`; `delete` issues a hard row
deletion `delete().eq('id', entityId)` — not a soft-delete update. -/
def processSyncItemCmd (item : SyncQueueItem) (payloadUpdatedAt : Option Int)
    (remote : Option Row) : Option RemoteCmd :=
  match item.operation with
  | SyncOp.create =>
      some (RemoteCmd.insert item.table
        (spreadInto [("id", Value.str item.entityId)] item.payload))
  | SyncOp.update =>
      match remote with
      | none => none
      | some r =>
          match payloadUpdatedAt with
          | some lt =>
              if lt < r.updated_at then none
              else some (RemoteCmd.update item.table item.entityId item.payload)
          | none => some (RemoteCmd.update item.table item.entityId item.payload)
  | SyncOp.delete => some (RemoteCmd.hardDelete item.table item.entityId)

/-- `isRemoteNewer` from `src/lib/sync/conflict.ts`: strict comparison of
the two `updated_at` timestamps. -/
def isRemoteNewer (localRow remote : Row) : Bool :=
  decide (localRow.updated_at < remote.updated_at)

/-- `resolveConflict` from `src/lib/sync/conflict.ts`: the remote row
wins when strictly newer, otherwise the local row wins — including on
equal timestamps.  No other column (in particular no `device_id`) is
consulted. -/
def resolveConflict (localRow remote : Row) : Row :=
  if isRemoteNewer localRow remote then remote else localRow

/-- The local store slice touched by the goal-list write path: the
`goalLists` entity table and the `sync_queue` outbox. -/
structure LocalState where
  goalLists : List Row
  syncQueue : List SyncQueueItem
deriving Repr, DecidableEq

/-- `createGoalList` from `src/lib/db/repositories/goalLists.ts` as the
sequence of committed local-store states it produces.  The source runs
`db.goalLists.add(newList)` and then `queueSync('goal_lists', 'create',
newList.id, {name, user_id})` as two separate awaited calls, each of
which commits its own IndexedDB transaction; the list below holds the
store state after each commit.  `gid` is the generated id, `ts` the
`now()` timestamp, `tsq` the enqueue timestamp taken inside `queueSync`,
and `qid` the auto-increment key assigned to the outbox row. -/
def createGoalList (s : LocalState) (name userId gid : String)
    (ts tsq : Int) (qid : Nat) : List LocalState :=
  let newList : Row :=
    { id := gid, updated_at := ts,
      fields := [("user_id", Value.str userId), ("name", Value.str name),
                 ("created_at", Value.num ts)] }
  let s1 : LocalState := { s with goalLists := s.goalLists ++ [newList] }
  let qItem : SyncQueueItem :=
    { id := qid, table := "goal_lists", operation := SyncOp.create,
      entityId := gid,
      payload := [("name", Value.str name), ("user_id", Value.str userId)],
      timestamp := tsq, retries := 0 }
  let s2 : LocalState := { s1 with syncQueue := s1.syncQueue ++ [qItem] }
  [s1, s2]

/-- The outbox–entity invariant of the specification, restricted to the
goal-list slice: every committed goal-list row has at least one
committed outbox operation targeting its id. -/
def outboxEntityInvariant (s : LocalState) : Prop :=
  ∀ r ∈ s.goalLists, ∃ i ∈ s.syncQueue, i.entityId = r.id

instance (s : LocalState) : Decidable (outboxEntityInvariant s) := by
  unfold outboxEntityInvariant
  infer_instance

/-! Concrete inputs used by the counterexamples and witnesses. -/

/-- An increment-by-one outbox row on `goals.g1.current_value`, with the
given primary key and enqueue time. -/
def incItem (i : Nat) (ts : Int) : SyncOperationItem :=
  { id := i, table := "goals", entityId := "g1", opType := OpType.increment,
    field := some "current_value", value := Value.num 1, timestamp := ts,
    retries := 0 }

/-- Two rapid increments on the same field of the same entity. -/
def twoIncs : List SyncOperationItem := [incItem 1 0, incItem 2 5]

/-- Fifty rapid `increment(current_value, 1)` outbox rows with distinct
primary keys. -/
def fiftyIncs : List SyncOperationItem :=
  (List.range 50).map (fun n => incItem (n + 1) n)

/-- The outbox produced by `create(g1); set(name); delete(g1)`. -/
def createSetDelete : List SyncOperationItem :=
  [ { id := 1, table := "goals", entityId := "g1", opType := OpType.create,
      field := none, value := Value.record [("name", Value.str "A")],
      timestamp := 0, retries := 0 },
    { id := 2, table := "goals", entityId := "g1", opType := OpType.set,
      field := some "name", value := Value.str "B", timestamp := 1,
      retries := 0 },
    { id := 3, table := "goals", entityId := "g1", opType := OpType.delete,
      field := none, value := Value.undef, timestamp := 2, retries := 0 } ]

/-- A local row with a locally written `name` and an older timestamp. -/
def localPendingRow : Row :=
  { id := "e1", updated_at := 100, fields := [("name", Value.str "local")] }

/-- The matching remote row, strictly newer, carrying a different
`name`. -/
def remoteNewerRow : Row :=
  { id := "e1", updated_at := 200, fields := [("name", Value.str "remote")] }

/-- The pending outbox operation on `e1` that should shield it. -/
def pendingE1 : SyncQueueItem :=
  { id := 4, table := "goals", operation := SyncOp.update, entityId := "e1",
    payload := [("name", Value.str "local")], timestamp := 100, retries := 0 }

/-- Two rows with identical `updated_at` and different `device_id`
fields, as written by two devices. -/
def rowDevA : Row :=
  { id := "e1", updated_at := 1000, fields := [("device_id", Value.str "aaa")] }

/-- The other device's row for the tiebreak scenario. -/
def rowDevB : Row :=
  { id := "e1", updated_at := 1000, fields := [("device_id", Value.str "bbb")] }

/-- A queued `delete` in the snapshot-based outbox format. -/
def deleteQueueItem : SyncQueueItem :=
  { id := 7, table := "goals", operation := SyncOp.delete, entityId := "g1",
    payload := [], timestamp := 1000, retries := 0 }

/-- The same delete as an intent-based outbox row. -/
def deleteOpItem : SyncOperationItem :=
  { id := 7, table := "goals", entityId := "g1", opType := OpType.delete,
    field := none, value := Value.undef, timestamp := 1000, retries := 0 }

/-! Claim theorems. -/

/-- C1: starting from an empty store, `createGoalList` commits an
intermediate state in which the goal list exists but the outbox is
empty — the entity mutation and the outbox append are two separate
transactions, so the outbox–entity invariant is violated at a commit
point, contrary to the claim (and to the repository's own architecture
report, whose guarantee the sibling repositories implement by wrapping
both writes in one `db.transaction`). -/
theorem c1_createGoalList_not_atomic :
    ∃ s ∈ createGoalList { goalLists := [], syncQueue := [] }
      "My List" "user1" "g1" 1000 1001 1,
      s.goalLists ≠ [] ∧ s.syncQueue = [] ∧ ¬ outboxEntityInvariant s := by
  decide

/-- C9 counterexample: on equal timestamps `resolveConflict` returns its
first (local) argument on both devices, so each device keeps its own
distinct row — the resolver never consults `device_id` and the two sides
do not converge, contrary to the claim. -/
theorem c9_counterexample :
    resolveConflict rowDevA rowDevB = rowDevA ∧
    resolveConflict rowDevB rowDevA = rowDevB ∧
    rowDevA ≠ rowDevB := by
  decide

/-- C9 amended: `resolveConflict` is plain last-write-wins on
`updated_at`; whenever the timestamps are equal the local argument wins,
regardless of `device_id`. -/
theorem c9_tie_local_wins (a b : Row) (h : a.updated_at = b.updated_at) :
    resolveConflict a b = a := by
  simp [resolveConflict, isRemoteNewer, h]

/-- C9 witness: the amended tie rule applied to the two concrete
device rows. -/
theorem c9_tie_local_wins_witness :
    resolveConflict rowDevA rowDevB = rowDevA :=
  c9_tie_local_wins rowDevA rowDevB rfl

/-- C8 counterexample: for a concrete queued delete, `processSyncItem`
issues a hard row deletion on the remote, not a soft-delete update; and
the (uncalled) `operationToMutation` helper, which does emit a
soft-delete update, sends exactly `{deleted: true, updated_at: <enqueue
timestamp>}` — no `device_id` and no fresh timestamp. -/
theorem c8_counterexample :
    processSyncItemCmd deleteQueueItem none none =
      some (RemoteCmd.hardDelete "goals" "g1") ∧
    operationToMutation deleteOpItem Value.undef =
      Except.ok (MutationType.update,
        [("deleted", Value.bool true), ("updated_at", Value.num 1000)]) ∧
    List.lookup "device_id"
      [("deleted", Value.bool true), ("updated_at", Value.num 1000)] = none :=
  ⟨rfl, rfl, rfl⟩

/-- C8 amended: every pushed delete is translated by the engine into a
hard row deletion keyed by table and entity id, and the
`operationToMutation` helper translates a delete operation into a
soft-delete update whose payload is exactly `deleted = true` plus the
operation's own enqueue timestamp (no `device_id`). -/
theorem c8_delete_push_shape :
    (∀ (idn : Nat) (t eid : String) (payload : List (String × Value))
        (ts : Int) (rtr : Nat) (pu : Option Int) (rem : Option Row),
      processSyncItemCmd
          { id := idn, table := t, operation := SyncOp.delete,
            entityId := eid, payload := payload, timestamp := ts,
            retries := rtr } pu rem =
        some (RemoteCmd.hardDelete t eid)) ∧
    (∀ (idn : Nat) (t eid : String) (f : Option String) (v : Value)
        (ts : Int) (rtr : Nat) (cv : Value),
      operationToMutation
          { id := idn, table := t, entityId := eid,
            opType := OpType.delete, field := f, value := v,
            timestamp := ts, retries := rtr } cv =
        Except.ok (MutationType.update,
          [("deleted", Value.bool true), ("updated_at", Value.num ts)])) :=
  ⟨fun _ _ _ _ _ _ _ _ => rfl, fun _ _ _ _ _ _ _ _ => rfl⟩

/-- C2 counterexample: entity `e1` has a pending outbox operation, yet
merging a strictly newer remote row replaces the whole local row
(dropping the locally written `name`) and marks the entity stale, after
which `discardStaleSyncs` removes the pending operation from the
outbox — the opposite of the claimed unconditional local-wins shield. -/
theorem c2_counterexample :
    mergeByTimestamp [localPendingRow] [remoteNewerRow] [("e1", pendingE1)] =
      ([remoteNewerRow], ["e1"]) ∧
    List.lookup "name" remoteNewerRow.fields ≠
      List.lookup "name" localPendingRow.fields ∧
    discardStaleSyncs ["e1"] [pendingE1] = [] := by
  decide

/-! Supporting lemmas about the compactor. -/

/-- A row whose operation type is not `set` passes through one
compaction step untouched. -/
theorem coalesceStep_of_not_set (q : List SyncOperationItem)
    (i : SyncOperationItem) (h : i.opType ≠ OpType.set) :
    coalesceStep q i = some i := by
  unfold coalesceStep
  rw [if_neg]
  intro hc
  exact h hc.1

/-- The three possible outcomes of one compaction step: untouched,
rewritten in place to the merged set (still a `set` with the same group
key), or deleted (only ever a `set`). -/
theorem coalesceStep_shape (q : List SyncOperationItem)
    (i : SyncOperationItem) :
    coalesceStep q i = some i ∨
    (i.opType = OpType.set ∧
      coalesceStep q i =
        some { i with
                value := mergedValueFor (setItemsOfGroup q (groupKey i)),
                field := none }) ∨
    (i.opType = OpType.set ∧ coalesceStep q i = none) := by
  unfold coalesceStep
  by_cases h1 : i.opType = OpType.set ∧ 1 < (setItemsOfGroup q (groupKey i)).length
  · rw [if_pos h1]
    by_cases h2 : i.id = oldestSetId (setItemsOfGroup q (groupKey i))
    · rw [if_pos h2]
      by_cases h3 : i.id ≠ 0
      · rw [if_pos h3]
        exact Or.inr (Or.inl ⟨h1.1, rfl⟩)
      · rw [if_neg h3]
        exact Or.inl rfl
    · rw [if_neg h2]
      by_cases h3 : i.id ≠ 0
      · rw [if_pos h3]
        exact Or.inr (Or.inr ⟨h1.1, rfl⟩)
      · rw [if_neg h3]
        exact Or.inl rfl
  · rw [if_neg h1]
    exact Or.inl rfl

/-- `filterMap` over a function that fixes every element of the list is
the identity. -/
theorem filterMap_eq_self_of {α : Type} (l : List α) (g : α → Option α)
    (h : ∀ a ∈ l, g a = some a) : l.filterMap g = l := by
  induction l with
  | nil => rfl
  | cons a t ih =>
      rw [List.filterMap_cons, h a (List.mem_cons_self a t)]
      rw [ih (fun b hb => h b (List.mem_cons_of_mem a hb))]

/-- Auxiliary form of the preservation property, with the traversed list
decoupled from the queue that fixes the groups. -/
theorem filter_opType_filterMap (q l : List SyncOperationItem) (τ : OpType)
    (hτ : τ ≠ OpType.set) :
    (l.filterMap (coalesceStep q)).filter (fun i => i.opType = τ) =
      l.filter (fun i => i.opType = τ) := by
  induction l with
  | nil => rfl
  | cons a t ih =>
      rcases coalesceStep_shape q a with h | ⟨hset, h⟩ | ⟨hset, h⟩
      · rw [List.filterMap_cons, h, List.filter_cons, List.filter_cons]
        by_cases ha : a.opType = τ
        · simp [ha, ih]
        · simp [ha, ih]
      · have ha : ¬ a.opType = τ := fun hc => hτ (hc ▸ hset)
        rw [List.filterMap_cons, h, List.filter_cons, List.filter_cons]
        simp [ha, ih]
      · have ha : ¬ a.opType = τ := fun hc => hτ (hc ▸ hset)
        rw [List.filterMap_cons, h, List.filter_cons]
        simp [ha, ih]

/-- Compaction does not create, drop or alter operations of any type
other than `set`: filtering the queue to a fixed non-`set` operation
type commutes with `coalescePendingOps`. -/
theorem coalesce_filter_opType (q : List SyncOperationItem) (τ : OpType)
    (hτ : τ ≠ OpType.set) :
    (coalescePendingOps q).filter (fun i => i.opType = τ) =
      q.filter (fun i => i.opType = τ) := by
  unfold coalescePendingOps
  by_cases hq : q.length ≤ 1
  · rw [if_pos hq]
  · rw [if_neg hq]
    exact filter_opType_filterMap q q τ hτ

/-- A queue containing no `set` operations is left untouched by the
compactor. -/
theorem coalesce_eq_self_of_no_sets (q : List SyncOperationItem)
    (h : ∀ i ∈ q, i.opType ≠ OpType.set) : coalescePendingOps q = q := by
  unfold coalescePendingOps
  by_cases hq : q.length ≤ 1
  · rw [if_pos hq]
  · rw [if_neg hq]
    exact filterMap_eq_self_of q (coalesceStep q)
      (fun a ha => coalesceStep_of_not_set q a (h a ha))

/-- If `canCoalesce` accepts a pair of operations, both are `set`
operations: creates, deletes and increments are never coalescable. -/
theorem canCoalesce_true_imp (a b : SyncOperationItem)
    (h : canCoalesce a b = true) :
    a.opType = OpType.set ∧ b.opType = OpType.set := by
  unfold canCoalesce at h
  split at h
  · simp at h
  · split at h
    · split at h
      · simp at h
      · split at h
        · simp at h
        · split at h
          · simp at h
          · rename_i heq hf hcd hinc
            have ha : a.opType = OpType.set := by
              cases hop : a.opType
              · exact absurd hop hinc
              · rfl
              · exact absurd (Or.inl hop) hcd
              · exact absurd (Or.inr hop) hcd
            exact ⟨ha, heq.symm.trans ha⟩
    · simp at h

/-- C3 counterexample: two consecutive `increment(current_value, 1)`
operations on the same entity and field are left as two separate rows by
the compactor — they are not replaced by one `increment` with delta 2,
contrary to the claim. -/
theorem c3_counterexample :
    coalescePendingOps twoIncs = twoIncs ∧ twoIncs.length = 2 := by
  decide

/-- C3 amended: the compactor never touches `increment` operations (the
source's Phase 1 explicitly defers increment summing), so the increments
of any queue pass through unchanged; in particular 50 rapid
`increment(field, 1)` rows remain exactly 50 rows. -/
theorem c3_increments_pass_through :
    (∀ q : List SyncOperationItem,
      (coalescePendingOps q).filter (fun i => i.opType = OpType.increment) =
        q.filter (fun i => i.opType = OpType.increment)) ∧
    coalescePendingOps fiftyIncs = fiftyIncs ∧ fiftyIncs.length = 50 := by
  refine ⟨fun q => coalesce_filter_opType q OpType.increment (by decide),
    ?_, ?_⟩
  · refine coalesce_eq_self_of_no_sets fiftyIncs (fun i hi => ?_)
    rcases List.mem_map.mp hi with ⟨n, _, rfl⟩
    simp [incItem]
  · simp [fiftyIncs]

/-- C4 counterexample: the queue `create(g1); set(name); delete(g1)`
compacts to itself — three operations survive and three remote requests
would be sent, not zero, contrary to the claimed create–delete
cancellation. -/
theorem c4_counterexample :
    coalescePendingOps createSetDelete = createSetDelete ∧
    createSetDelete ≠ [] := by
  decide

/-- C4 amended: the compactor never drops or rewrites `create` or
`delete` operations (only groups of two or more `set` operations are
merged), so a `create … delete` group keeps both endpoints; the pair
check `canCoalesce` likewise only ever accepts two `set` operations. -/
theorem c4_create_delete_pass_through :
    (∀ q : List SyncOperationItem,
      (coalescePendingOps q).filter (fun i => i.opType = OpType.create) =
        q.filter (fun i => i.opType = OpType.create) ∧
      (coalescePendingOps q).filter (fun i => i.opType = OpType.delete) =
        q.filter (fun i => i.opType = OpType.delete)) ∧
    (∀ a b : SyncOperationItem,
      canCoalesce a b = false ∨
        (a.opType = OpType.set ∧ b.opType = OpType.set)) := by
  refine ⟨fun q => ⟨coalesce_filter_opType q OpType.create (by decide),
    coalesce_filter_opType q OpType.delete (by decide)⟩, fun a b => ?_⟩
  cases hcb : canCoalesce a b
  · exact Or.inl rfl
  · exact Or.inr (canCoalesce_true_imp a b hcb)

/-! Lemmas leading to the idempotence of the compactor (C5). -/

/-- Option filter helper used to push a list filter through
`filterMap`. -/
def ofilter {α : Type} (p : α → Bool) : Option α → Option α
  | some a => if p a then some a else none
  | none => none

/-- Filtering after a `filterMap` is the `filterMap` of the filtered
step function. -/
theorem filter_filterMap_eq {α β : Type} (g : α → Option β) (p : β → Bool)
    (l : List α) :
    (l.filterMap g).filter p = l.filterMap (fun a => ofilter p (g a)) := by
  induction l with
  | nil => rfl
  | cons a t ih =>
      cases hga : g a with
      | none => rw [List.filterMap_cons, hga, List.filterMap_cons, hga]; exact ih
      | some b =>
          rw [List.filterMap_cons, hga, List.filterMap_cons, hga]
          by_cases hp : p b = true
          · simp only [ofilter, hp, if_pos, List.filter_cons, ih]
          · simp only [ofilter, List.filter_cons, hp, if_neg, ih]
            simp [Bool.eq_false_iff.mpr hp, ih]

/-- The length of a `filterMap` counts the elements the step function
keeps. -/
theorem length_filterMap_eq_countP {α β : Type} (g : α → Option β)
    (l : List α) :
    (l.filterMap g).length = l.countP (fun a => (g a).isSome) := by
  induction l with
  | nil => rfl
  | cons a t ih =>
      cases hga : g a with
      | none => simp [List.filterMap_cons, hga, List.countP_cons, ih]
      | some b => simp [List.filterMap_cons, hga, List.countP_cons, ih]

/-- Pointwise-weaker predicates count no more elements. -/
theorem countP_le_countP {α : Type} (p₁ p₂ : α → Bool) (l : List α)
    (h : ∀ a ∈ l, p₁ a = true → p₂ a = true) :
    l.countP p₁ ≤ l.countP p₂ := by
  induction l with
  | nil => exact Nat.le_refl 0
  | cons a t ih =>
      have ht := ih (fun b hb => h b (List.mem_cons_of_mem a hb))
      by_cases ha : p₁ a = true
      · have := h a (List.mem_cons_self a t) ha
        simp [List.countP_cons, ha, this]
        omega
      · simp only [List.countP_cons, Bool.eq_false_iff.mpr ha]
        by_cases hb : p₂ a = true <;> simp [hb] <;> omega

/-- In a queue whose primary keys are distinct, at most one row carries
any given primary key. -/
theorem countP_id_le_one (q : List SyncOperationItem)
    (hnd : (q.map (fun i => i.id)).Nodup) (c : Nat) :
    q.countP (fun i => i.id == c) ≤ 1 := by
  have h1 : q.countP (fun i => i.id == c) =
      (q.map (fun i => i.id)).countP (fun n => n == c) := by
    rw [List.countP_map]
    rfl
  rw [h1]
  have h2 : (q.map (fun i => i.id)).countP (fun n => n == c) =
      (q.map (fun i => i.id)).count c := rfl
  rw [h2]
  exact List.nodup_iff_count_le_one.mp hnd c

/-- Case analysis for one compaction step on a row with a real (nonzero)
primary key. -/
theorem coalesceStep_cases (q : List SyncOperationItem)
    (i : SyncOperationItem) (hnz : i.id ≠ 0) :
    (¬ (i.opType = OpType.set ∧
        1 < (setItemsOfGroup q (groupKey i)).length) ∧
      coalesceStep q i = some i) ∨
    (i.opType = OpType.set ∧
      1 < (setItemsOfGroup q (groupKey i)).length ∧
      i.id = oldestSetId (setItemsOfGroup q (groupKey i)) ∧
      coalesceStep q i =
        some { i with
                value := mergedValueFor (setItemsOfGroup q (groupKey i)),
                field := none }) ∨
    (i.opType = OpType.set ∧
      1 < (setItemsOfGroup q (groupKey i)).length ∧
      coalesceStep q i = none) := by
  unfold coalesceStep
  by_cases h1 : i.opType = OpType.set ∧
      1 < (setItemsOfGroup q (groupKey i)).length
  · rw [if_pos h1]
    by_cases h2 : i.id = oldestSetId (setItemsOfGroup q (groupKey i))
    · rw [if_pos h2, if_pos hnz]
      exact Or.inr (Or.inl ⟨h1.1, h1.2, h2, rfl⟩)
    · rw [if_neg h2, if_pos hnz]
      exact Or.inr (Or.inr ⟨h1.1, h1.2, rfl⟩)
  · rw [if_neg h1]
    exact Or.inl ⟨h1, rfl⟩

/-- After one compaction pass, every `(table, entityId)` group holds at
most one `set` operation.  The hypotheses are the Dexie primary-key
invariants of the stored queue: ids are distinct and non-zero. -/
theorem setItems_coalesce_le_one (q : List SyncOperationItem)
    (hnd : (q.map (fun i => i.id)).Nodup)
    (hnz : ∀ i ∈ q, i.id ≠ 0) (k : String) :
    (setItemsOfGroup (coalescePendingOps q) k).length ≤ 1 := by
  unfold coalescePendingOps
  by_cases hq : q.length ≤ 1
  · rw [if_pos hq]
    exact Nat.le_trans (List.length_filter_le _ q) hq
  · rw [if_neg hq]
    unfold setItemsOfGroup
    rw [filter_filterMap_eq, length_filterMap_eq_countP]
    by_cases hlen : 1 < (setItemsOfGroup q k).length
    · -- only the oldest set row of the group can survive; primary-key
      -- uniqueness bounds it by one
      have hstep : ∀ a ∈ q,
          (ofilter (fun i =>
              decide (groupKey i = k ∧ i.opType = OpType.set))
            (coalesceStep q a)).isSome = true →
          (a.id == oldestSetId (setItemsOfGroup q k)) = true := by
        intro a ha hs
        rcases coalesceStep_cases q a (hnz a ha) with
          ⟨hcond, heq⟩ | ⟨hset, hgt, hold, heq⟩ | ⟨hset, hgt, heq⟩
        · rw [heq] at hs
          simp only [ofilter] at hs
          split at hs
          · rename_i hP
            have hPk : groupKey a = k ∧ a.opType = OpType.set :=
              of_decide_eq_true hP
            exact absurd ⟨hPk.2, hPk.1 ▸ hlen⟩ hcond
          · simp at hs
        · rw [heq] at hs
          simp only [ofilter] at hs
          split at hs
          · rename_i hP
            have hPk := of_decide_eq_true hP
            have hk : groupKey a = k := hPk.1
            rw [beq_iff_eq]
            rw [← hk]
            exact hold
          · simp at hs
        · rw [heq] at hs
          simp [ofilter] at hs
      calc q.countP _ ≤ q.countP (fun a =>
            a.id == oldestSetId (setItemsOfGroup q k)) :=
              countP_le_countP _ _ q hstep
        _ ≤ 1 := countP_id_le_one q hnd _
    · -- the group already had at most one set row; survivors keep the
      -- group predicate, so their count is bounded by the original one
      have hstep : ∀ a ∈ q,
          (ofilter (fun i =>
              decide (groupKey i = k ∧ i.opType = OpType.set))
            (coalesceStep q a)).isSome = true →
          (decide (groupKey a = k ∧ a.opType = OpType.set)) = true := by
        intro a ha hs
        rcases coalesceStep_cases q a (hnz a ha) with
          ⟨hcond, heq⟩ | ⟨hset, hgt, hold, heq⟩ | ⟨hset, hgt, heq⟩
        · rw [heq] at hs
          simp only [ofilter] at hs
          split at hs
          · rename_i hP
            exact hP
          · simp at hs
        · rw [heq] at hs
          simp only [ofilter] at hs
          split at hs
          · rename_i hP
            have hPk := of_decide_eq_true hP
            have hk : groupKey a = k := hPk.1
            exact absurd (hk ▸ hgt) hlen
          · simp at hs
        · rw [heq] at hs
          simp [ofilter] at hs
      calc q.countP _ ≤ q.countP
            (fun a => decide (groupKey a = k ∧ a.opType = OpType.set)) :=
              countP_le_countP _ _ q hstep
        _ = (setItemsOfGroup q k).length := by
              rw [List.countP_eq_length_filter]
              rfl
        _ ≤ 1 := Nat.le_of_not_lt hlen

/-- C5: the compactor is idempotent — running `coalescePendingOps` on
the queue produced by a previous run leaves the queue unchanged.  The
hypotheses are the primary-key invariants the store guarantees for the
rows `toArray` returns: distinct, non-zero auto-increment ids. -/
theorem c5_coalesce_idempotent (q : List SyncOperationItem)
    (hnd : (q.map (fun i => i.id)).Nodup)
    (hnz : ∀ i ∈ q, i.id ≠ 0) :
    coalescePendingOps (coalescePendingOps q) = coalescePendingOps q := by
  have hone := setItems_coalesce_le_one q hnd hnz
  generalize hr : coalescePendingOps q = r at hone
  unfold coalescePendingOps
  by_cases hlen : r.length ≤ 1
  · rw [if_pos hlen]
  · rw [if_neg hlen]
    refine filterMap_eq_self_of r (coalesceStep r) (fun i _ => ?_)
    unfold coalesceStep
    rw [if_neg]
    intro hc
    exact absurd (hone (groupKey i)) (Nat.not_le_of_lt hc.2)

/-- A two-element all-`set` queue with distinct non-zero ids, used to
witness the idempotence theorem on an input that actually merges. -/
def twoSets : List SyncOperationItem :=
  [ { id := 1, table := "goals", entityId := "g1", opType := OpType.set,
      field := some "name", value := Value.str "A", timestamp := 0,
      retries := 0 },
    { id := 2, table := "goals", entityId := "g1", opType := OpType.set,
      field := some "name", value := Value.str "B", timestamp := 5,
      retries := 0 } ]

/-- C5 witness: idempotence applied to a concrete queue whose two set
operations really get merged by the first pass. -/
theorem c5_coalesce_idempotent_witness :
    coalescePendingOps (coalescePendingOps twoSets) =
      coalescePendingOps twoSets :=
  c5_coalesce_idempotent twoSets (by decide) (by decide)

/-! Supporting lemmas for the merge, backoff and push theorems. -/

/-- Membership through the stable insertion step. -/
theorem mem_insertByTs (x a : SyncOperationItem)
    (l : List SyncOperationItem) :
    a ∈ insertByTs x l ↔ a = x ∨ a ∈ l := by
  induction l with
  | nil => simp [insertByTs]
  | cons y ys ih =>
      unfold insertByTs
      by_cases h : y.timestamp ≤ x.timestamp
      · rw [if_pos h]
        simp only [List.mem_cons, ih]
        tauto
      · rw [if_neg h]
        simp only [List.mem_cons]

/-- Membership through the fold that implements the stable sort. -/
theorem mem_sortByTs_aux (l : List SyncOperationItem) :
    ∀ (acc : List SyncOperationItem) (a : SyncOperationItem),
      a ∈ l.foldl (fun acc x => insertByTs x acc) acc ↔ a ∈ acc ∨ a ∈ l := by
  induction l with
  | nil => intro acc a; simp
  | cons x t ih =>
      intro acc a
      rw [List.foldl_cons, ih (insertByTs x acc) a, mem_insertByTs]
      simp only [List.mem_cons]
      tauto

/-- The stable timestamp sort preserves membership. -/
theorem mem_sortByTs (q : List SyncOperationItem) (a : SyncOperationItem) :
    a ∈ sortByTs q ↔ a ∈ q := by
  unfold sortByTs
  rw [mem_sortByTs_aux q [] a]
  simp

/-- Rows surviving `discardStaleSyncs` come from the original queue. -/
theorem mem_of_mem_discardStaleSyncs (stale : List String)
    (q : List SyncQueueItem) (i : SyncQueueItem)
    (h : i ∈ discardStaleSyncs stale q) : i ∈ q := by
  induction stale generalizing q with
  | nil => exact h
  | cons e es ih =>
      have h1 : i ∈ removeSyncItemsForEntity q e :=
        ih (removeSyncItemsForEntity q e) h
      exact (List.mem_filter.mp h1).1

/-- No row surviving `discardStaleSyncs` targets a stale entity. -/
theorem discardStaleSyncs_clears (stale : List String)
    (q : List SyncQueueItem) (i : SyncQueueItem)
    (h : i ∈ discardStaleSyncs stale q) : i.entityId ∉ stale := by
  induction stale generalizing q with
  | nil => simp
  | cons e es ih =>
      have h1 : i ∈ removeSyncItemsForEntity q e :=
        mem_of_mem_discardStaleSyncs es _ i h
      have h2 : ¬ i.entityId = e := by
        have := (List.mem_filter.mp h1).2
        simpa using this
      have h3 : i.entityId ∉ es := ih (removeSyncItemsForEntity q e) h
      simp only [List.mem_cons]
      tauto

/-- A `put` row is in the store afterwards. -/
theorem mem_putRow_self (store : List Row) (r : Row) : r ∈ putRow store r := by
  unfold putRow
  by_cases h : store.any (fun x => x.id = r.id) = true
  · rw [if_pos h]
    obtain ⟨x, hx, hxid⟩ := List.any_eq_true.mp h
    refine List.mem_map.mpr ⟨x, hx, ?_⟩
    rw [if_pos (of_decide_eq_true hxid)]
  · rw [if_neg h]
    exact List.mem_append_right _ (List.mem_singleton_self r)

/-! Remaining claim theorems. -/

/-- C2 amended: when an entity has a pending outbox operation, the merge
is whole-row last-write-wins on `updated_at` with ties going to local:
a strictly newer remote row replaces the local row entirely and the
entity is marked stale, after which `discardStaleSyncs` removes every
pending operation of the stale entities from the outbox; the local row
wins only when its `updated_at` is at least the remote's. -/
theorem c2_pending_merge_is_row_lww (l r : Row)
    (pend : List (String × SyncQueueItem)) (hid : l.id = r.id)
    (hp : (List.lookup r.id pend).isSome = true) :
    (mergeByTimestamp [l] [r] pend =
      if l.updated_at < r.updated_at then ([r], [r.id]) else ([l], [])) ∧
    (∀ (stale : List String) (q : List SyncQueueItem) (i : SyncQueueItem),
      i ∈ discardStaleSyncs stale q → i.entityId ∉ stale) := by
  constructor
  · obtain ⟨it, hit⟩ := Option.isSome_iff_exists.mp hp
    unfold mergeByTimestamp
    simp only [List.foldl_cons, List.foldl_nil, List.map_cons, List.map_nil]
    unfold mergeRemoteStep
    rw [hit]
    unfold lookupLast
    have hfil : [l].filter (fun x => x.id = r.id) = [l] := by
      simp [hid]
    rw [hfil]
    simp only [List.getLast?_singleton]
    have hcontains : [r.id].contains l.id = true := by
      simp [hid]
    by_cases hlt : l.updated_at < r.updated_at
    · simp [hlt, hcontains, hid]
    · simp [hlt, hcontains, hid]
  · exact discardStaleSyncs_clears

/-- C2 amended, witness: the merge and discard rule applied to the
concrete pending entity `e1` with a strictly newer remote row. -/
theorem c2_pending_merge_is_row_lww_witness :
    mergeByTimestamp [localPendingRow] [remoteNewerRow] [("e1", pendingE1)] =
      ([remoteNewerRow], ["e1"]) :=
  (c2_pending_merge_is_row_lww localPendingRow remoteNewerRow
    [("e1", pendingE1)] rfl (by decide)).1

/-- C6: push eligibility follows the backoff rule — a fresh operation
(`retries = 0`) is always eligible; an operation with `1 ≤ retries < 5`
is eligible exactly when `2^(retries-1)` seconds have elapsed since its
timestamp; `getPendingSync` never returns an operation at the retry
ceiling and returns every stored eligible operation; a failed attempt
(`incrementRetry`) bumps `retries` and refreshes `timestamp` to now. -/
theorem c6_backoff_discipline :
    (∀ (it : SyncOperationItem) (now : Int), it.retries = 0 →
      shouldRetryItem it now = true) ∧
    (∀ (it : SyncOperationItem) (now : Int), 1 ≤ it.retries →
      it.retries < MAX_SYNC_RETRIES →
      (shouldRetryItem it now = true ↔
        (2 : Int) ^ (it.retries - 1) * 1000 ≤ now - it.timestamp)) ∧
    (∀ (q : List SyncOperationItem) (now : Int) (it : SyncOperationItem),
      it ∈ getPendingSync q now → it.retries < MAX_SYNC_RETRIES) ∧
    (∀ (q : List SyncOperationItem) (now : Int) (it : SyncOperationItem),
      it ∈ q → shouldRetryItem it now = true → it ∈ getPendingSync q now) ∧
    (∀ (q : List SyncOperationItem) (rowId : Nat) (now : Int)
        (it : SyncOperationItem), it ∈ q → it.id = rowId →
      { it with retries := it.retries + 1, timestamp := now } ∈
        incrementRetry q rowId now) := by
  refine ⟨?_, ?_, ?_, ?_, ?_⟩
  · intro it now h
    simp [shouldRetryItem, MAX_SYNC_RETRIES, h]
  · intro it now h1 h5
    have hnot5 : ¬ MAX_SYNC_RETRIES ≤ it.retries := Nat.not_le_of_lt h5
    have hnot0 : ¬ it.retries = 0 := by omega
    unfold shouldRetryItem
    rw [if_neg hnot5, if_neg hnot0]
    exact decide_eq_true_iff
  · intro q now it h
    have hret : shouldRetryItem it now = true := (List.mem_filter.mp h).2
    by_contra hge
    have : MAX_SYNC_RETRIES ≤ it.retries := Nat.le_of_not_lt hge
    unfold shouldRetryItem at hret
    rw [if_pos this] at hret
    exact Bool.false_ne_true hret
  · intro q now it hmem hret
    exact List.mem_filter.mpr ⟨(mem_sortByTs q it).mpr hmem, hret⟩
  · intro q rowId now it hmem hidm
    refine List.mem_map.mpr ⟨it, hmem, ?_⟩
    simp [hidm]

/-- C6 witness: the backoff rule applied at concrete points — a fresh
op is eligible, a once-failed op 1 s after its stamp is eligible, and a
once-failed op 0.5 s after its stamp is not. -/
theorem c6_backoff_discipline_witness :
    shouldRetryItem (incItem 1 0) 0 = true ∧
    shouldRetryItem { incItem 1 0 with retries := 1 } 1000 = true ∧
    shouldRetryItem { incItem 1 0 with retries := 1 } 500 = false := by
  refine ⟨c6_backoff_discipline.1 (incItem 1 0) 0 rfl, ?_, ?_⟩
  · exact (c6_backoff_discipline.2.1 { incItem 1 0 with retries := 1 } 1000
      (by decide) (by decide)).mpr (by decide)
  · have h := c6_backoff_discipline.2.1 { incItem 1 0 with retries := 1 } 500
      (by decide) (by decide)
    have hnt : ¬ shouldRetryItem { incItem 1 0 with retries := 1 } 500 = true := by
      rw [h]
      decide
    exact Bool.eq_false_iff.mpr hnt

/-- C7: pushing a `set`/`update` operation whose remote row is strictly
newer than the local basis discards the operation and pulls the remote
row into the local store; a remote row at least as old as the basis lets
the update go through to the remote unchanged. -/
theorem c7_stale_set_remote_wins (lt : Int) (r : Row) (store : List Row) :
    (lt < r.updated_at →
      pushUpdate (some lt) (some r) store =
        (UpdateOutcome.discardedPull, putRow store r) ∧
      r ∈ (pushUpdate (some lt) (some r) store).2) ∧
    (r.updated_at ≤ lt →
      pushUpdate (some lt) (some r) store = (UpdateOutcome.applied, store)) := by
  have hred : pushUpdate (some lt) (some r) store =
      if lt < r.updated_at then (UpdateOutcome.discardedPull, putRow store r)
      else (UpdateOutcome.applied, store) := rfl
  constructor
  · intro h
    rw [hred, if_pos h]
    exact ⟨rfl, mem_putRow_self store r⟩
  · intro h
    rw [hred, if_neg (Int.not_lt.mpr h)]

/-- C7 witness: the stale-basis rule at concrete timestamps — basis 100
against remote 200 discards and pulls; basis 300 against remote 200
applies. -/
theorem c7_stale_set_remote_wins_witness :
    pushUpdate (some 100) (some remoteNewerRow) [] =
      (UpdateOutcome.discardedPull, [remoteNewerRow]) ∧
    pushUpdate (some 300) (some remoteNewerRow) [] =
      (UpdateOutcome.applied, []) := by
  constructor
  · have h := (c7_stale_set_remote_wins 100 remoteNewerRow []).1 (by decide)
    rw [h.1]
    rfl
  · exact (c7_stale_set_remote_wins 300 remoteNewerRow []).2 (by decide)

/-- A remote row with an id unrelated to the concrete local rows. -/
def remoteOtherRow : Row :=
  { id := "e9", updated_at := 500, fields := [("name", Value.str "other")] }

/-- C10: `mergeByTimestamp` never drops local-only rows — every local
row whose id does not occur among the remote rows appears unchanged in
the merge result, so a pull cannot erase an entity created locally but
not yet pushed. -/
theorem c10_local_only_rows_survive (ls rs : List Row)
    (pend : List (String × SyncQueueItem)) (l : Row) (hl : l ∈ ls)
    (hnot : l.id ∉ rs.map (fun r => r.id)) :
    l ∈ (mergeByTimestamp ls rs pend).1 := by
  unfold mergeByTimestamp
  refine List.mem_append_right _ (List.mem_filter.mpr ⟨hl, ?_⟩)
  simp only [decide_eq_true_eq]
  intro hc
  exact hnot (by simpa using hc)

/-- C10 witness: a pending local create (`e1`) survives a pull that
returns only the unrelated remote row `e9`. -/
theorem c10_local_only_rows_survive_witness :
    localPendingRow ∈
      (mergeByTimestamp [localPendingRow] [remoteOtherRow] []).1 :=
  c10_local_only_rows_survive [localPendingRow] [remoteOtherRow] []
    localPendingRow (by decide) (by decide)

end GoalPlanner
